import Mathlib

set_option autoImplicit false

/-!
Verification of the parallel-requests orchestration library.

Shallow embedding of the core components, translated from the Python
source under `src/parallel_requests/`:

* `utils/retry.py`      : `RetryConfig`, `RetryStrategy._should_retry`,
                          `RetryStrategy.execute`
* `utils/rate_limiter.py`: `TokenBucket` (`_refill_tokens`, `available`,
                          `acquire`)
* `utils/proxies.py`    : `ProxyManager` (`get_next`, `mark_failed`,
                          `mark_success`, `count_available`)
* `backends/base.py`    : `RequestConfig` field list, `NormalizedResponse`
                          (`from_backend`, `__post_init__`,
                          `_normalize_headers`)
* `client.py`           : `ParallelRequests.request` batch pipeline and
                          the session close behaviour

Python `float` time and token arithmetic is modelled with `ℚ`; machine
concerns (actual sleeping, the event loop) are modelled by passing clock
values and completion schedules explicitly.
-/

namespace ParallelRequests

/-! ### Errors (exceptions.py)

A Python exception value is modelled by the class it is an instance of
(a numeric class id; `isinstance` against a set of classes is membership
of the id) together with an opaque payload distinguishing instances. -/

structure PyError where
  cls : Nat
  payload : Nat := 0
deriving DecidableEq, Repr

/-- FailureDetails from exceptions.py: url, error, attempt (default 0). -/
structure FailureDetails where
  url : String
  error : PyError
  attempt : Nat := 0
deriving DecidableEq, Repr

/-! ### Retry strategy (utils/retry.py) -/

/-- RetryConfig from utils/retry.py.  The `retry_on` / `dont_retry_on`
sets of exception classes are lists of class ids; the empty list models
both `None` and an empty set (both are falsy in `if self.config.dont_retry_on`). -/
structure RetryConfig where
  maxRetries : Nat := 3
  retryOn : List Nat := []
  dontRetryOn : List Nat := []
deriving DecidableEq, Repr

/-- Membership test modelling `isinstance(error, tuple(classes))`. -/
def isInstanceOfAny (e : PyError) (classes : List Nat) : Bool :=
  classes.contains e.cls

/-- RetryStrategy._should_retry from utils/retry.py. -/
def shouldRetry (cfg : RetryConfig) (e : PyError) : Bool :=
  if !cfg.dontRetryOn.isEmpty && isInstanceOfAny e cfg.dontRetryOn then
    false
  else if !cfg.retryOn.isEmpty then
    isInstanceOfAny e cfg.retryOn
  else
    true

/-- Observable outcome of `RetryStrategy.execute`: a returned value, an
immediately re-raised non-retryable error, or a `RetryExhaustedError`
carrying `attempts` and `last_error`. -/
inductive RetryOutcome (A : Type) where
  | ok (value : A)
  | raised (error : PyError)
  | exhausted (attempts : Nat) (lastError : Option PyError)
deriving DecidableEq, Repr

/-- Trace of one `RetryStrategy.execute` run: outcome, how many times
the wrapped operation was invoked, and how many backoff sleeps happened. -/
structure ExecTrace (A : Type) where
  outcome : RetryOutcome A
  invocations : Nat
  sleeps : Nat
deriving DecidableEq, Repr

/-- Loop body of `RetryStrategy.execute` (utils/retry.py lines 43-60).
`attempt` is the 0-indexed attempt counter of the `for attempt in
range(max_retries + 1)` loop and `remaining = max_retries - attempt` is
the number of loop iterations still to come; `op` gives the result of
the wrapped operation at each attempt index. -/
def executeGo {A : Type} (cfg : RetryConfig) (op : Nat → Except PyError A) :
    Nat → Nat → ExecTrace A
  | attempt, remaining =>
    match op attempt with
    | .ok v => ⟨.ok v, 1, 0⟩
    | .error e =>
      if shouldRetry cfg e then
        match remaining with
        | 0 => ⟨.exhausted cfg.maxRetries (some e), 1, 0⟩
        | r + 1 =>
          let t := executeGo cfg op (attempt + 1) r
          ⟨t.outcome, t.invocations + 1, t.sleeps + 1⟩
      else
        ⟨.raised e, 1, 0⟩

/-- RetryStrategy.execute from utils/retry.py. -/
def execute {A : Type} (cfg : RetryConfig) (op : Nat → Except PyError A) :
    ExecTrace A :=
  executeGo cfg op 0 cfg.maxRetries

/-! ### Token bucket (utils/rate_limiter.py) -/

/-- TokenBucket state from utils/rate_limiter.py: configured rate and
burst, current token count `_tokens`, and the `_last_update` monotonic
timestamp.  Python floats are modelled by `ℚ`; `burst` is an `int`. -/
structure TokenBucket where
  requestsPerSecond : ℚ
  burst : ℤ
  tokens : ℚ
  lastUpdate : ℚ
deriving DecidableEq, Repr

/-- TokenBucket.__init__: tokens start at `float(burst)` at time `now`. -/
def TokenBucket.create (rate : ℚ) (burst : ℤ) (now : ℚ) : TokenBucket :=
  ⟨rate, burst, (burst : ℚ), now⟩

/-- TokenBucket._refill_tokens, with the `time.monotonic()` reading
passed in explicitly. -/
def refillTokens (b : TokenBucket) (now : ℚ) : TokenBucket :=
  { b with
    lastUpdate := now
    tokens := min (b.burst : ℚ)
                  (b.tokens + (now - b.lastUpdate) * b.requestsPerSecond) }

/-- Python `int(...)` truncation toward zero of a `ℚ`. -/
def pyIntTrunc (q : ℚ) : ℤ :=
  if 0 ≤ q then ⌊q⌋ else -⌊-q⌋

/-- TokenBucket.available: refills, then returns `int(self._tokens)`
without deducting anything; the updated state is returned alongside. -/
def availableTokens (b : TokenBucket) (now : ℚ) : ℤ × TokenBucket :=
  let b' := refillTokens b now
  (pyIntTrunc b'.tokens, b')

/-- One iteration of the `while True` loop of TokenBucket.acquire:
refill, then either deduct `n` tokens (second component `none`, token
acquired) or leave the tokens untouched and compute the sleep duration
`(tokens - self._tokens) / self.requests_per_second` (second component
`some wait`). -/
def acquireStep (b : TokenBucket) (now : ℚ) (n : ℕ) : TokenBucket × Option ℚ :=
  let b' := refillTokens b now
  if (n : ℚ) ≤ b'.tokens then
    ({ b' with tokens := b'.tokens - n }, none)
  else
    (b', some ((n - b'.tokens) / b.requestsPerSecond))

/-- Invariant claimed for the bucket: token count within `[0, burst]`. -/
def BucketInv (b : TokenBucket) : Prop :=
  0 ≤ b.tokens ∧ b.tokens ≤ (b.burst : ℚ)

/-! ### Proxy manager (utils/proxies.py) -/

/-- Python dict assignment `d[k] = v` on an association list (dict keys
are unique, so the entry list has nodup keys): replaces the value in
place when the key is present, otherwise appends the new entry at the
end. -/
def dictInsert {β : Type} : List (String × β) → String → β → List (String × β)
  | [], k, v => [(k, v)]
  | a :: tl, k, v => if a.1 = k then (k, v) :: tl else a :: dictInsert tl k v

/-- Python `dict.pop(k, None)`: drops the entry for `k`. -/
def dictPop {β : Type} (d : List (String × β)) (k : String) :
    List (String × β) :=
  d.filter (fun p => decide (p.1 ≠ k))

/-- ProxyManager state from utils/proxies.py: the validated proxy pool,
the `_failed_proxies` cooldown dict (proxy → available-again timestamp)
and the configured `retry_delay`. -/
structure ProxyManager where
  proxies : List String
  failedProxies : List (String × ℚ)
  retryDelay : ℚ
deriving DecidableEq, Repr

/-- ProxyManager.mark_failed: records `now + retry_delay` as the
cooldown-until timestamp, but only for proxies of the pool. -/
def markFailed (pm : ProxyManager) (proxy : String) (now : ℚ) : ProxyManager :=
  if proxy ∈ pm.proxies then
    { pm with
      failedProxies := dictInsert pm.failedProxies proxy (now + pm.retryDelay) }
  else pm

/-- ProxyManager.mark_success: clears any cooldown for the proxy. -/
def markSuccess (pm : ProxyManager) (proxy : String) : ProxyManager :=
  { pm with failedProxies := dictPop pm.failedProxies proxy }

/-- Selection part of ProxyManager.get_next: prune cooldown entries
whose timestamp is not in the future, then keep the proxies that are
not in the pruned cooldown dict.  Returns the selectable list together
with the updated state; `random.choice` itself is modelled in `getNext`
by an arbitrary index. -/
def getNextAvailable (pm : ProxyManager) (now : ℚ) :
    List String × ProxyManager :=
  let pruned := pm.failedProxies.filter (fun e => decide (now < e.2))
  let avail := pm.proxies.filter (fun p => !(pruned.any (fun q => decide (q.1 = p))))
  (avail, { pm with failedProxies := pruned })

/-- ProxyManager.get_next with `random.choice` modelled by the index
`k`: the `none` sentinel exactly when no proxy is selectable. -/
def getNext (pm : ProxyManager) (now : ℚ) (k : Nat) :
    Option String × ProxyManager :=
  (if (getNextAvailable pm now).1.isEmpty then none
   else (getNextAvailable pm now).1.get? (k % (getNextAvailable pm now).1.length),
   (getNextAvailable pm now).2)

/-- List of proxies counted by ProxyManager.count_available: a proxy
counts when it has no cooldown entry or its entry is not in the future
(`p not in self._failed_proxies or self._failed_proxies[p] <= now`). -/
def availableProxies (pm : ProxyManager) (now : ℚ) : List String :=
  pm.proxies.filter (fun p =>
    match pm.failedProxies.lookup p with
    | none => true
    | some t => decide (t ≤ now))

/-- ProxyManager.count_available. -/
def countAvailable (pm : ProxyManager) (now : ℚ) : Nat :=
  (availableProxies pm now).length

/-! ### Normalized response (backends/base.py)

`bytes.decode("utf-8", errors="replace")` is modelled by an explicit
UTF-8 decoder over byte lists: valid sequences decode to their scalar
value, every maximal invalid subpart is replaced by U+FFFD (the WHATWG
policy implemented by CPython), and decoding is total — it can never
raise.  `json.loads` is an external collaborator modelled by a function
returning `none` exactly when it would raise. -/

/-- Continuation byte test: `0x80..0xBF`. -/
def isCont (b : Nat) : Bool :=
  0x80 ≤ b && b ≤ 0xBF

/-- Allowed first continuation byte after a three-byte lead (shortest
form and surrogate exclusion): lead `E0` needs `A0..BF`, lead `ED`
needs `80..9F`, other leads need a plain continuation byte. -/
def cont3ok (lead c : Nat) : Bool :=
  if lead = 0xE0 then 0xA0 ≤ c && c ≤ 0xBF
  else if lead = 0xED then 0x80 ≤ c && c ≤ 0x9F
  else isCont c

/-- Allowed first continuation byte after a four-byte lead: lead `F0`
needs `90..BF`, lead `F4` needs `80..8F`, other leads need a plain
continuation byte. -/
def cont4ok (lead c : Nat) : Bool :=
  if lead = 0xF0 then 0x90 ≤ c && c ≤ 0xBF
  else if lead = 0xF4 then 0x80 ≤ c && c ≤ 0x8F
  else isCont c

/-- Decode one UTF-8 sequence at the head of the byte list:
`some (scalar, rest)` when a valid sequence starts here. -/
def classify : List Nat → Option (Nat × List Nat)
  | [] => none
  | b :: rest =>
    if b < 0x80 then some (b, rest)
    else if b < 0xC2 then none
    else if b ≤ 0xDF then
      match rest with
      | c1 :: r1 =>
        if isCont c1 then some ((b - 0xC0) * 64 + (c1 - 0x80), r1) else none
      | [] => none
    else if b ≤ 0xEF then
      match rest with
      | c1 :: c2 :: r2 =>
        if cont3ok b c1 && isCont c2 then
          some ((b - 0xE0) * 4096 + (c1 - 0x80) * 64 + (c2 - 0x80), r2)
        else none
      | _ => none
    else if b ≤ 0xF4 then
      match rest with
      | c1 :: c2 :: c3 :: r3 =>
        if cont4ok b c1 && isCont c2 && isCont c3 then
          some ((b - 0xF0) * 262144 + (c1 - 0x80) * 4096 +
                  (c2 - 0x80) * 64 + (c3 - 0x80), r3)
        else none
      | _ => none
    else none

/-- Number of bytes consumed for one maximal invalid subpart (replaced
by a single U+FFFD). -/
def invalidSkip : List Nat → Nat
  | [] => 1
  | b :: rest =>
    if b < 0xE0 then 1
    else if b ≤ 0xEF then
      match rest with
      | c1 :: _ => if cont3ok b c1 then 2 else 1
      | [] => 1
    else if b ≤ 0xF4 then
      match rest with
      | c1 :: c2 :: _ => if cont4ok b c1 then (if isCont c2 then 3 else 2) else 1
      | c1 :: [] => if cont4ok b c1 then 2 else 1
      | [] => 1
    else 1

/-- UTF-8 decoding with replacement (fuel recursion; the wrapper below
supplies `length` as fuel, which is always sufficient). -/
def decodeReplaceAux : Nat → List Nat → List Nat
  | 0, _ => []
  | _ + 1, [] => []
  | fuel + 1, b :: bs =>
    match classify (b :: bs) with
    | some (u, rest) => u :: decodeReplaceAux fuel rest
    | none => 0xFFFD :: decodeReplaceAux fuel ((b :: bs).drop (invalidSkip (b :: bs)))

/-- `bytes.decode("utf-8", errors="replace")`: total on every byte
list. -/
def decodeUtf8Replace (bs : List Nat) : List Nat :=
  decodeReplaceAux bs.length bs

/-- Strict UTF-8 decoding: `none` exactly on invalid input.  Reference
decoder used to state what "UTF-8 decoding with replacement-character
substitution on invalid bytes" means. -/
def decodeStrictAux : Nat → List Nat → Option (List Nat)
  | _, [] => some []
  | 0, _ :: _ => none
  | fuel + 1, b :: bs =>
    match classify (b :: bs) with
    | some (u, rest) => (decodeStrictAux fuel rest).map (u :: ·)
    | none => none

/-- Strict UTF-8 decode of a whole byte list. -/
def decodeUtf8Strict (bs : List Nat) : Option (List Nat) :=
  decodeStrictAux bs.length bs

/-- NormalizedResponse from backends/base.py, polymorphic in the type
of parsed JSON values. -/
structure NormalizedResponse (J : Type) where
  statusCode : Int
  headers : List (String × String)
  content : List Nat
  text : List Nat
  jsonData : Option J
  url : String
  isJson : Bool

/-- Python `str.lower()` (character-wise lowercase). -/
def pyLower (s : String) : String :=
  ⟨s.data.map Char.toLower⟩

/-- NormalizedResponse._normalize_headers: lowercase every key. -/
def normalizeHeaders (hs : List (String × String)) : List (String × String) :=
  hs.map (fun p => (pyLower p.1, p.2))

/-- NormalizedResponse.__post_init__: when flagged `is_json` with no
JSON value yet, try `json.loads(self.text)`; a parse failure is
swallowed, leaving the field `None`. -/
def postInit {J : Type} (jsonLoads : List Nat → Option J)
    (r : NormalizedResponse J) : NormalizedResponse J :=
  if r.isJson && r.jsonData.isNone then
    { r with jsonData := jsonLoads r.text }
  else r

/-- NormalizedResponse.from_backend: decode the body with replacement,
lowercase the header keys, construct with `json_data=None` and run
`__post_init__`. -/
def fromBackend {J : Type} (jsonLoads : List Nat → Option J)
    (statusCode : Int) (headers : List (String × String)) (content : List Nat)
    (url : String) (isJson : Bool) : NormalizedResponse J :=
  postInit jsonLoads
    { statusCode := statusCode
      headers := normalizeHeaders headers
      content := content
      text := decodeUtf8Replace content
      jsonData := none
      url := url
      isJson := isJson }

/-! ### RequestConfig keyword check (client.py vs backends/base.py) -/

/-- Field names declared by the `RequestConfig` dataclass in
backends/base.py (lines 6-18). -/
def requestConfigFields : List String :=
  ["url", "method", "params", "data", "json", "headers", "cookies",
   "timeout", "proxy", "http2", "stream"]

/-- Keyword arguments passed to the `RequestConfig(...)` construction by
`ParallelRequests._execute_request` (client.py lines 462-477). -/
def clientRequestConfigKeywords : List String :=
  ["url", "method", "params", "data", "json", "headers", "cookies",
   "timeout", "proxy", "http2", "stream", "follow_redirects", "verify_ssl"]

/-- A Python dataclass call binds without a `TypeError: unexpected
keyword argument` exactly when every keyword is a declared field. -/
def dataclassAcceptsKeywords (fields kws : List String) : Bool :=
  kws.all (fun k => fields.contains k)

/-! ### Batch request pipeline (client.py, ParallelRequests.request) -/

/-- One output position of the batch loop (client.py lines 414-427):
the `None` placeholder, the raw exception kept as the pending
placeholder of a failed position, or a (possibly `parse_func`-mapped)
successful value. -/
inductive Cell (V : Type) where
  | noneSentinel
  | pending (e : PyError)
  | value (v : V)
deriving DecidableEq, Repr

/-- PartialFailureError from exceptions.py lines 140-170: message,
failure dict keyed by URL, success count, total count. -/
structure PartialFailureError where
  message : String
  failures : List (String × FailureDetails)
  successes : Nat
  total : Nat
deriving DecidableEq, Repr

/-- Shape of a finished batch result (client.py lines 437-443). -/
inductive BatchResult (V : Type) where
  | single (c : Cell V)
  | listed (cs : List (Cell V))
  | keyed (d : List (String × Cell V))
deriving DecidableEq, Repr

/-- Observable outcome of one `ParallelRequests.request` call. -/
inductive RequestResult (V : Type) where
  | raisedConfiguration (message : String)
  | raisedPartialFailure (e : PartialFailureError)
  | completed (r : BatchResult V)
deriving DecidableEq, Repr

/-- `not isinstance(result, Exception)` on a gathered outcome. -/
def isOk {V : Type} : Except PyError V → Bool
  | .ok _ => true
  | .error _ => false

/-- `parse_func` application to a successful item (client.py line 426). -/
def applyParse {V : Type} (parse : Option (V → V)) (v : V) : V :=
  match parse with
  | some f => f v
  | none => v

/-- URL normalization of client.py lines 370-376: a single URL becomes a
one-element list; single-ness is remembered for the return shape. -/
def urlListOf : String ⊕ List String → List String
  | .inl u => [u]
  | .inr us => us

/-- Keys validation of client.py line 379:
`keys is not None and len(keys) != len(url_list)`. -/
def keysMismatch (keys : Option (List String)) (n : Nat) : Bool :=
  match keys with
  | some ks => decide (ks.length ≠ n)
  | none => false

/-- Results as collected by `asyncio.gather(*tasks,
return_exceptions=True)` (client.py line 409): one result-or-exception
per index, in input order.  `gatherResults` below shows this is what
reassembling an arbitrary completion order yields. -/
def batchResults {V : Type} (urls : String ⊕ List String)
    (outcomes : Nat → Except PyError V) : List (Except PyError V) :=
  (List.range (urlListOf urls).length).map outcomes

/-- asyncio.gather modelled with an explicit completion schedule: tasks
finish in the order `sched` (a permutation of the indices), each
delivering `(index, outcome)`, and gather places every outcome at its
task's index. -/
def gatherResults {V : Type} (outcomes : Nat → Except PyError V)
    (n : Nat) (sched : List Nat) : List (Option (Except PyError V)) :=
  (List.range n).map (fun i => (sched.map (fun j => (j, outcomes j))).lookup i)

/-- Loop of client.py lines 414-427 building `processed_results`. -/
def processedResults {V : Type} (returnNoneOnFailure : Bool)
    (parse : Option (V → V)) (results : List (Except PyError V)) :
    List (Cell V) :=
  results.map fun r =>
    match r with
    | .error e => if returnNoneOnFailure then .noneSentinel else .pending e
    | .ok v => .value (applyParse parse v)

/-- One step of the failures loop (client.py line 421):
`failures[current_url] = FailureDetails(url=current_url, error=result)`
when the gathered result is an exception, nothing otherwise. -/
def recordFailure {V : Type} (d : List (String × FailureDetails))
    (p : String × Except PyError V) : List (String × FailureDetails) :=
  match p.2 with
  | .error e => dictInsert d p.1 ⟨p.1, e, 0⟩
  | .ok _ => d

/-- Loop of client.py lines 414-422 building the `failures` dict keyed
by URL; nothing is recorded when degrading gracefully. -/
def buildFailures {V : Type} (returnNoneOnFailure : Bool)
    (pairs : List (String × Except PyError V)) :
    List (String × FailureDetails) :=
  if returnNoneOnFailure then []
  else pairs.foldl recordFailure []

/-- Failure dict of one batch call. -/
def batchFailures {V : Type} (returnNoneOnFailure : Bool)
    (urls : String ⊕ List String) (outcomes : Nat → Except PyError V) :
    List (String × FailureDetails) :=
  buildFailures returnNoneOnFailure
    ((urlListOf urls).zip (batchResults urls outcomes))

/-- Processed cells of one batch call. -/
def batchProcessed {V : Type} (returnNoneOnFailure : Bool)
    (parse : Option (V → V)) (urls : String ⊕ List String)
    (outcomes : Nat → Except PyError V) : List (Cell V) :=
  processedResults returnNoneOnFailure parse (batchResults urls outcomes)

/-- `len([r for r in results if not isinstance(r, Exception)])`
(client.py line 433). -/
def batchSuccesses {V : Type} (urls : String ⊕ List String)
    (outcomes : Nat → Except PyError V) : Nat :=
  ((batchResults urls outcomes).filter isOk).length

/-- Message of the raised PartialFailureError (client.py line 431). -/
def partialFailureMessage (numFailures total : Nat) : String :=
  "Partial failure: " ++ toString numFailures ++ " of " ++ toString total ++
    " requests failed"

/-- `dict(zip(keys, processed_results, strict=True))` (client.py line
441); later duplicate keys overwrite earlier entries as in a Python
dict. -/
def dictOfZip {V : Type} (ks : List String) (cs : List (Cell V)) :
    List (String × Cell V) :=
  (ks.zip cs).foldl (fun d p => dictInsert d p.1 p.2) []

/-- ParallelRequests.request (client.py lines 356-443) given the
gathered per-index task outcomes.  `backendSome` is whether
`self._backend` is set — the only state the guard at line 356 checks.
The empty-list case of the single-URL branch is unreachable (a single
URL always yields one processed item). -/
def request {V : Type} (backendSome returnNoneOnFailure : Bool)
    (urls : String ⊕ List String) (keys : Option (List String))
    (parse : Option (V → V)) (outcomes : Nat → Except PyError V) :
    RequestResult V :=
  if backendSome = false then
    .raisedConfiguration "Backend not initialized"
  else if keysMismatch keys (urlListOf urls).length then
    .raisedConfiguration "Number of keys must match number of URLs"
  else if !(batchFailures returnNoneOnFailure urls outcomes).isEmpty &&
      !returnNoneOnFailure then
    .raisedPartialFailure
      ⟨partialFailureMessage
          (batchFailures returnNoneOnFailure urls outcomes).length
          (urlListOf urls).length,
       batchFailures returnNoneOnFailure urls outcomes,
       batchSuccesses urls outcomes,
       (urlListOf urls).length⟩
  else
    match urls with
    | .inl _ =>
      match batchProcessed returnNoneOnFailure parse urls outcomes with
      | c :: _ => .completed (.single c)
      | [] => .completed (.single .noneSentinel)
    | .inr _ =>
      match keys with
      | some ks =>
        .completed (.keyed
          (dictOfZip ks (batchProcessed returnNoneOnFailure parse urls outcomes)))
      | none =>
        .completed (.listed (batchProcessed returnNoneOnFailure parse urls outcomes))

/-! ### Session lifecycle (client.py) -/

/-- Backend session handle; `closed` flips when the backend's `close()`
releases the pooled connections. -/
structure BackendHandle where
  closed : Bool
deriving DecidableEq, Repr

/-- Client state relevant to the request guard: `self._backend`. -/
structure Client where
  backendRef : Option BackendHandle
deriving DecidableEq, Repr

/-- ParallelRequests.close (client.py lines 214-217): closes the backend
session (`await self._backend.close()`) but leaves `self._backend`
set. -/
def closeClient (c : Client) : Client :=
  { c with backendRef := c.backendRef.map (fun b => { b with closed := true }) }

/-- ParallelRequests.request as guarded by the client state: line 356
raises `ConfigurationError("Backend not initialized")` exactly when
`self._backend` is falsy. -/
def clientRequest {V : Type} (c : Client) (returnNoneOnFailure : Bool)
    (urls : String ⊕ List String) (keys : Option (List String))
    (parse : Option (V → V)) (outcomes : Nat → Except PyError V) :
    RequestResult V :=
  request c.backendRef.isSome returnNoneOnFailure urls keys parse outcomes

end ParallelRequests

namespace ParallelRequests

theorem executeGo_always_fails {A : Type} (cfg : RetryConfig)
    (op : Nat → Except PyError A) (errs : Nat → PyError)
    (hop : ∀ i, op i = .error (errs i))
    (hretry : ∀ i, shouldRetry cfg (errs i) = true) :
    ∀ r a, executeGo cfg op a r =
      ⟨.exhausted cfg.maxRetries (some (errs (a + r))), r + 1, r⟩ := by
  intro r
  induction r with
  | zero =>
    intro a
    simp [executeGo, hop a, hretry a]
  | succ r ih =>
    intro a
    have h2 := ih (a + 1)
    have heq : a + 1 + r = a + (r + 1) := by omega
    rw [heq] at h2
    simp [executeGo, hop a, hretry a, h2]

/-- Claim C4: an always-failing retryable operation is invoked exactly
`max_retries + 1` times and ends in a `RetryExhaustedError` whose
`attempts` equals `max_retries` and whose `last_error` is the error of
the final invocation. -/
theorem retry_exhaustion {A : Type} (cfg : RetryConfig)
    (op : Nat → Except PyError A) (errs : Nat → PyError)
    (hop : ∀ i, op i = .error (errs i))
    (hretry : ∀ i, shouldRetry cfg (errs i) = true) :
    execute cfg op =
      ⟨.exhausted cfg.maxRetries (some (errs cfg.maxRetries)),
       cfg.maxRetries + 1, cfg.maxRetries⟩ := by
  have := executeGo_always_fails cfg op errs hop hretry cfg.maxRetries 0
  simpa [execute] using this

/-- Witness for C4: `max_retries = 2`, operation always failing with a
retryable error, gives 3 invocations and `exhausted 2`. -/
theorem retry_exhaustion_witness :
    execute (A := Nat) ⟨2, [], []⟩ (fun _ => .error ⟨5, 0⟩) =
      ⟨.exhausted 2 (some ⟨5, 0⟩), 3, 2⟩ :=
  retry_exhaustion ⟨2, [], []⟩ (fun _ => .error ⟨5, 0⟩) (fun _ => ⟨5, 0⟩)
    (fun _ => rfl) (fun _ => rfl)

/-- Claim C6: an error instance of a deny-listed class — or, with an allow-list
configured, an error not an instance of any allow-listed class — makes
`execute` invoke the operation exactly once, re-raise the original error
(not a `RetryExhaustedError`), and never sleep. -/
theorem nonretryable_short_circuit {A : Type} (cfg : RetryConfig)
    (op : Nat → Except PyError A) (e : PyError)
    (hop : op 0 = .error e)
    (hclass : (cfg.dontRetryOn ≠ [] ∧ e.cls ∈ cfg.dontRetryOn) ∨
              (cfg.retryOn ≠ [] ∧ e.cls ∉ cfg.retryOn)) :
    execute cfg op = ⟨.raised e, 1, 0⟩ := by
  have hsr : shouldRetry cfg e = false := by
    rcases hclass with ⟨hne, hmem⟩ | ⟨hne, hmem⟩
    · simp [shouldRetry, isInstanceOfAny, List.isEmpty_iff, hne, hmem]
    · by_cases hd : !cfg.dontRetryOn.isEmpty && isInstanceOfAny e cfg.dontRetryOn
      · simp [shouldRetry, hd]
      · simp only [shouldRetry, hd, if_false]
        simp [List.isEmpty_iff, hne, isInstanceOfAny, hmem]
  cases hr : cfg.maxRetries <;>
    simp [execute, executeGo, hop, hsr, hr]

/-- Witness for C6: deny-list `[7]`, operation failing with an error of
class 7: exactly one invocation, original error re-raised, no sleep. -/
theorem nonretryable_short_circuit_witness :
    execute (A := Nat) ⟨3, [], [7]⟩ (fun _ => .error ⟨7, 0⟩) =
      ⟨.raised ⟨7, 0⟩, 1, 0⟩ :=
  nonretryable_short_circuit ⟨3, [], [7]⟩ (fun _ => .error ⟨7, 0⟩) ⟨7, 0⟩ rfl
    (Or.inl ⟨by decide, by decide⟩)

/-- Claim C5: with `rate > 0` and `burst ≥ 1`, every TokenBucket operation
keeps the token count in `[0, burst]`; `_refill_tokens` sets tokens to
`min(burst, tokens + elapsed * rate)`; `acquire(n)` deducts `n` exactly
when the refilled tokens are at least `n` and otherwise leaves them
untouched, computing the wait `(n - tokens) / rate`, after which a
re-check of the same condition succeeds (for `n ≤ burst`); `available()`
returns the refilled token count truncated to `int` without consuming
any tokens and never returns more than `burst`. -/
theorem token_bucket_ops (b : TokenBucket) (now : ℚ) (n : ℕ)
    (hrate : 0 < b.requestsPerSecond) (hburst : 1 ≤ b.burst)
    (hinv : BucketInv b) (hnow : b.lastUpdate ≤ now) :
    BucketInv (refillTokens b now) ∧
    (refillTokens b now).tokens =
      min (b.burst : ℚ) (b.tokens + (now - b.lastUpdate) * b.requestsPerSecond) ∧
    BucketInv (acquireStep b now n).1 ∧
    ((acquireStep b now n).2 = none ↔ (n : ℚ) ≤ (refillTokens b now).tokens) ∧
    ((n : ℚ) ≤ (refillTokens b now).tokens →
      (acquireStep b now n).1.tokens = (refillTokens b now).tokens - n) ∧
    (∀ w, (acquireStep b now n).2 = some w →
      w = (n - (refillTokens b now).tokens) / b.requestsPerSecond ∧
      (acquireStep b now n).1.tokens = (refillTokens b now).tokens) ∧
    (availableTokens b now).1 = pyIntTrunc (refillTokens b now).tokens ∧
    0 ≤ (availableTokens b now).1 ∧
    (availableTokens b now).1 ≤ b.burst ∧
    (availableTokens b now).2.tokens = (refillTokens b now).tokens ∧
    (∀ w, (acquireStep b now n).2 = some w → (n : ℚ) ≤ (b.burst : ℚ) →
      (acquireStep (acquireStep b now n).1 (now + w) n).2 = none) := by
  have hb0 : (0 : ℚ) ≤ (b.burst : ℚ) := by exact_mod_cast le_trans zero_le_one hburst
  have helapsed : (0 : ℚ) ≤ (now - b.lastUpdate) * b.requestsPerSecond :=
    mul_nonneg (by linarith) (le_of_lt hrate)
  have hrt : 0 ≤ b.tokens + (now - b.lastUpdate) * b.requestsPerSecond := by
    have := hinv.1; linarith
  have htok : (refillTokens b now).tokens =
      min (b.burst : ℚ) (b.tokens + (now - b.lastUpdate) * b.requestsPerSecond) := rfl
  have hrefInv : BucketInv (refillTokens b now) := by
    constructor
    · show (0 : ℚ) ≤ (refillTokens b now).tokens
      rw [htok]; exact le_min hb0 hrt
    · show (refillTokens b now).tokens ≤ ((refillTokens b now).burst : ℚ)
      rw [htok]; exact min_le_left _ _
  have hstepPos : ∀ h : (n : ℚ) ≤ (refillTokens b now).tokens,
      acquireStep b now n =
        ({ refillTokens b now with tokens := (refillTokens b now).tokens - n }, none) := by
    intro h; simp [acquireStep, h]
  have hstepNeg : ∀ _ : ¬ (n : ℚ) ≤ (refillTokens b now).tokens,
      acquireStep b now n =
        (refillTokens b now,
         some (((n : ℚ) - (refillTokens b now).tokens) / b.requestsPerSecond)) := by
    intro h; simp [acquireStep, h]
  have hfl : pyIntTrunc (refillTokens b now).tokens = ⌊(refillTokens b now).tokens⌋ := by
    unfold pyIntTrunc
    rw [if_pos hrefInv.1]
  refine ⟨hrefInv, htok, ?_, ?_, ?_, ?_, rfl, ?_, ?_, rfl, ?_⟩
  · by_cases h : (n : ℚ) ≤ (refillTokens b now).tokens
    · rw [hstepPos h]
      constructor
      · show (0 : ℚ) ≤ (refillTokens b now).tokens - (n : ℚ)
        linarith
      · show (refillTokens b now).tokens - (n : ℚ) ≤ ((refillTokens b now).burst : ℚ)
        have h2 := hrefInv.2
        have hn0 : (0 : ℚ) ≤ (n : ℚ) := Nat.cast_nonneg n
        linarith
    · rw [hstepNeg h]; exact hrefInv
  · constructor
    · intro hnone
      by_cases h : (n : ℚ) ≤ (refillTokens b now).tokens
      · exact h
      · rw [hstepNeg h] at hnone; simp at hnone
    · intro h; rw [hstepPos h]
  · intro h; rw [hstepPos h]
  · intro w hw
    by_cases h : (n : ℚ) ≤ (refillTokens b now).tokens
    · rw [hstepPos h] at hw; simp at hw
    · rw [hstepNeg h] at hw
      simp only [Option.some.injEq] at hw
      exact ⟨hw.symm, by rw [hstepNeg h]⟩
  · show 0 ≤ (availableTokens b now).1
    have : (availableTokens b now).1 = pyIntTrunc (refillTokens b now).tokens := rfl
    rw [this, hfl]
    exact Int.floor_nonneg.mpr hrefInv.1
  · show (availableTokens b now).1 ≤ b.burst
    have h1 : (availableTokens b now).1 = pyIntTrunc (refillTokens b now).tokens := rfl
    rw [h1, hfl]
    calc ⌊(refillTokens b now).tokens⌋ ≤ ⌊(b.burst : ℚ)⌋ :=
          Int.floor_le_floor hrefInv.2
    _ = b.burst := Int.floor_intCast b.burst
  · intro w hw hnb
    by_cases h : (n : ℚ) ≤ (refillTokens b now).tokens
    · rw [hstepPos h] at hw; simp at hw
    · rw [hstepNeg h] at hw
      simp only [Option.some.injEq] at hw
      have hw' : w = ((n : ℚ) - (refillTokens b now).tokens) / b.requestsPerSecond :=
        hw.symm
      rw [hstepNeg h]
      have hrateNe : b.requestsPerSecond ≠ 0 := ne_of_gt hrate
      have hwr : w * b.requestsPerSecond = (n : ℚ) - (refillTokens b now).tokens := by
        rw [hw']; exact div_mul_cancel₀ _ hrateNe
      have ht2 : (refillTokens (refillTokens b now) (now + w)).tokens = (n : ℚ) := by
        have hcalc : (refillTokens b now).tokens + ((now + w) - now) * b.requestsPerSecond
            = (n : ℚ) := by
          have hwe : ((now + w) - now) = w := by ring
          rw [hwe, hwr]; ring
        show min ((b.burst : ℚ))
            ((refillTokens b now).tokens + ((now + w) - now) * b.requestsPerSecond)
          = (n : ℚ)
        rw [hcalc]
        exact min_eq_right hnb
      have hle : (n : ℚ) ≤ (refillTokens (refillTokens b now) (now + w)).tokens :=
        le_of_eq ht2.symm
      simp [acquireStep, hle]

/-- Witness for C5: a drained bucket (`rate = 10`, `burst = 5`,
`tokens = 0`) observed one second later. -/
theorem token_bucket_ops_witness :
    BucketInv (refillTokens ⟨10, 5, 0, 0⟩ 1) ∧
    (availableTokens (⟨10, 5, 0, 0⟩ : TokenBucket) 1).1 ≤ 5 := by
  have h := token_bucket_ops ⟨10, 5, 0, 0⟩ 1 1 (by decide) (by decide)
    (by constructor <;> decide) (by decide)
  exact ⟨h.1, h.2.2.2.2.2.2.2.2.1⟩

theorem lookup_dictInsert {β : Type} (d : List (String × β)) (k : String) (v : β) :
    (dictInsert d k v).lookup k = some v := by
  induction d with
  | nil => simp [dictInsert, List.lookup]
  | cons a tl ih =>
    by_cases hk : a.1 = k
    · simp [dictInsert, hk, List.lookup]
    · have hne : (k == a.1) = false := by
        rw [beq_eq_false_iff_ne]
        exact fun he => hk he.symm
      simpa [dictInsert, hk, List.lookup, hne] using ih

theorem dictInsert_self_mem {β : Type} (d : List (String × β)) (k : String) (v : β) :
    (k, v) ∈ dictInsert d k v := by
  induction d with
  | nil => simp [dictInsert]
  | cons a tl ih =>
    by_cases hk : a.1 = k
    · simp [dictInsert, hk]
    · simp only [dictInsert, if_neg hk, List.mem_cons]
      exact Or.inr ih

theorem dictInsert_key_val {β : Type} (d : List (String × β)) (k : String) (v : β)
    (hnd : (d.map Prod.fst).Nodup) :
    ∀ q ∈ dictInsert d k v, q.1 = k → q = (k, v) := by
  induction d with
  | nil =>
    intro q hq hqk
    simpa [dictInsert] using hq
  | cons a tl ih =>
    intro q hq hqk
    simp only [List.map_cons, List.nodup_cons] at hnd
    by_cases hk : a.1 = k
    · simp only [dictInsert, if_pos hk, List.mem_cons] at hq
      rcases hq with hq | hq
      · exact hq
      · exfalso
        have hmem : q.1 ∈ tl.map Prod.fst := List.mem_map_of_mem Prod.fst hq
        rw [hqk, ← hk] at hmem
        exact hnd.1 hmem
    · simp only [dictInsert, if_neg hk, List.mem_cons] at hq
      rcases hq with hq | hq
      · rw [hq] at hqk
        exact absurd hqk hk
      · exact ih hnd.2 q hq hqk

theorem dictInsert_keys_mem {β : Type} (d : List (String × β)) (k : String) (v : β) :
    ∀ u, u ∈ (dictInsert d k v).map Prod.fst ↔ u = k ∨ u ∈ d.map Prod.fst := by
  intro u
  induction d with
  | nil => simp [dictInsert]
  | cons a tl ih =>
    by_cases hk : a.1 = k
    · have he : dictInsert (a :: tl) k v = (k, v) :: tl := by
        simp [dictInsert, hk]
      rw [he]
      simp only [List.map_cons, List.mem_cons, hk]
      tauto
    · have he : dictInsert (a :: tl) k v = a :: dictInsert tl k v := by
        simp [dictInsert, hk]
      rw [he]
      simp only [List.map_cons, List.mem_cons, ih]
      tauto

theorem dictInsert_keys_nodup {β : Type} (d : List (String × β)) (k : String) (v : β)
    (hnd : (d.map Prod.fst).Nodup) :
    ((dictInsert d k v).map Prod.fst).Nodup := by
  induction d with
  | nil => simp [dictInsert]
  | cons a tl ih =>
    simp only [List.map_cons, List.nodup_cons] at hnd
    by_cases hk : a.1 = k
    · simp only [dictInsert, if_pos hk, List.map_cons, List.nodup_cons]
      exact ⟨hk ▸ hnd.1, hnd.2⟩
    · simp only [dictInsert, if_neg hk, List.map_cons, List.nodup_cons]
      refine ⟨?_, ih hnd.2⟩
      rw [dictInsert_keys_mem]
      rintro (h | h)
      · exact hk h
      · exact hnd.1 h

theorem lookup_dictPop {β : Type} (d : List (String × β)) (k : String) :
    (dictPop d k).lookup k = none := by
  induction d with
  | nil => simp [dictPop]
  | cons a tl ih =>
    by_cases h : a.1 = k
    · simpa [dictPop, List.filter_cons, h] using ih
    · have hne : (k == a.1) = false := by
        simp only [beq_eq_false_iff_ne, ne_eq]
        exact fun he => h he.symm
      simpa [dictPop, List.filter_cons, h, List.lookup, hne] using ih

/-- Claim C8: after `mark_failed(p)` the proxy's cooldown-until timestamp is
`now + retry_delay`; while that timestamp is in the future `p` is
excluded from the `get_next` selection and from the `count_available`
count; once the timestamp is reached `p` is selectable and counted
again; `mark_success(p)` clears the cooldown immediately; and
`get_next` returns the `None` sentinel when no proxy is available after
exclusion. -/
theorem proxy_cooldown (pm : ProxyManager) (p : String) (now : ℚ)
    (hp : p ∈ pm.proxies)
    (hnd : (pm.failedProxies.map Prod.fst).Nodup) :
    (markFailed pm p now).failedProxies.lookup p = some (now + pm.retryDelay) ∧
    (∀ t, t < now + pm.retryDelay →
      p ∉ (getNextAvailable (markFailed pm p now) t).1 ∧
      p ∉ availableProxies (markFailed pm p now) t) ∧
    (∀ t, now + pm.retryDelay ≤ t →
      p ∈ (getNextAvailable (markFailed pm p now) t).1 ∧
      p ∈ availableProxies (markFailed pm p now) t) ∧
    (∀ t, p ∈ (getNextAvailable (markSuccess (markFailed pm p now) p) t).1 ∧
      p ∈ availableProxies (markSuccess (markFailed pm p now) p) t) ∧
    (∀ t k, (getNextAvailable (markFailed pm p now) t).1 = [] →
      (getNext (markFailed pm p now) t k).1 = none) := by
  have hmf : (markFailed pm p now).failedProxies =
      dictInsert pm.failedProxies p (now + pm.retryDelay) := by
    simp [markFailed, hp]
  have hmfp : (markFailed pm p now).proxies = pm.proxies := by
    simp [markFailed, hp]
  refine ⟨?_, ?_, ?_, ?_, ?_⟩
  · rw [hmf]; exact lookup_dictInsert _ _ _
  · intro t ht
    constructor
    · intro hmem
      have hno := (List.mem_filter.mp hmem).2
      rw [Bool.not_eq_eq_eq_not, Bool.not_true, List.any_eq_false] at hno
      have hentry : (p, now + pm.retryDelay) ∈
          (markFailed pm p now).failedProxies.filter (fun e => decide (t < e.2)) := by
        refine List.mem_filter.mpr ⟨?_, by simpa using ht⟩
        rw [hmf]; exact dictInsert_self_mem _ _ _
      have := hno _ hentry
      simp at this
    · intro hmem
      have hcnt := (List.mem_filter.mp hmem).2
      rw [hmf, lookup_dictInsert] at hcnt
      simp only [decide_eq_true_eq] at hcnt
      exact absurd hcnt (not_le.mpr ht)
  · intro t ht
    have hcond : ((markFailed pm p now).failedProxies.filter
        (fun e => decide (t < e.2))).any (fun q => decide (q.1 = p)) = false := by
      rw [List.any_eq_false]
      intro q hq
      have hqm := (List.mem_filter.mp hq).1
      have hqt := (List.mem_filter.mp hq).2
      simp only [decide_eq_true_eq]
      intro hqp
      have hqe : q = (p, now + pm.retryDelay) := by
        rw [hmf] at hqm
        exact dictInsert_key_val _ _ _ hnd q hqm hqp
      rw [hqe] at hqt
      simp only [decide_eq_true_eq] at hqt
      exact absurd ht (not_le.mpr hqt)
    constructor
    · exact List.mem_filter.mpr ⟨hmfp ▸ hp, by simp [hcond]⟩
    · refine List.mem_filter.mpr ⟨hmfp ▸ hp, ?_⟩
      rw [hmf, lookup_dictInsert]
      simpa using ht
  · intro t
    have hms : (markSuccess (markFailed pm p now) p).failedProxies =
        dictPop (markFailed pm p now).failedProxies p := rfl
    have hmsp : (markSuccess (markFailed pm p now) p).proxies = pm.proxies := by
      simp [markSuccess, hmfp]
    constructor
    · refine List.mem_filter.mpr ⟨hmsp ▸ hp, ?_⟩
      rw [Bool.not_eq_eq_eq_not, Bool.not_true, List.any_eq_false]
      intro q hq
      have hq1 : q ∈ (markSuccess (markFailed pm p now) p).failedProxies :=
        (List.mem_filter.mp hq).1
      rw [hms] at hq1
      have := (List.mem_filter.mp hq1).2
      simpa using this
    · refine List.mem_filter.mpr ⟨hmsp ▸ hp, ?_⟩
      rw [hms, lookup_dictPop]
  · intro t k hempty
    simp [getNext, hempty]

/-- Witness for C8: a two-proxy pool with `retry_delay = 60`; proxy
`1.1.1.1:80` marked failed at time 0 has cooldown-until 60 and is not
counted as available at time 30. -/
theorem proxy_cooldown_witness :
    (markFailed ⟨["1.1.1.1:80", "2.2.2.2:80"], [], 60⟩ "1.1.1.1:80"
        0).failedProxies.lookup "1.1.1.1:80" = some 60 ∧
    "1.1.1.1:80" ∉
      availableProxies
        (markFailed ⟨["1.1.1.1:80", "2.2.2.2:80"], [], 60⟩ "1.1.1.1:80" 0) 30 := by
  have h := proxy_cooldown ⟨["1.1.1.1:80", "2.2.2.2:80"], [], 60⟩ "1.1.1.1:80" 0
    (by decide) (by decide)
  exact ⟨by simpa using h.1, (h.2.1 30 (by rw [zero_add]; decide)).2⟩

theorem classify_length (bs : List Nat) (u : Nat) (rest : List Nat)
    (h : classify bs = some (u, rest)) : rest.length < bs.length := by
  cases bs with
  | nil => simp [classify] at h
  | cons b tl =>
    simp only [classify] at h
    repeat' split at h
    all_goals simp_all
    all_goals omega

theorem decodeStrictAux_agree :
    ∀ (fuel : Nat) (bs : List Nat) (us : List Nat), bs.length ≤ fuel →
      decodeStrictAux fuel bs = some us → decodeReplaceAux fuel bs = us := by
  intro fuel
  induction fuel with
  | zero =>
    intro bs us hle h
    cases bs with
    | nil => simpa [decodeStrictAux, decodeReplaceAux] using h.symm
    | cons b tl => simp at hle
  | succ fuel ih =>
    intro bs us hle h
    cases bs with
    | nil => simpa [decodeStrictAux, decodeReplaceAux] using h.symm
    | cons b tl =>
      rw [decodeStrictAux] at h
      rw [decodeReplaceAux]
      cases hc : classify (b :: tl) with
      | none => rw [hc] at h; simp at h
      | some p =>
        obtain ⟨u', rest⟩ := p
        rw [hc] at h
        simp only [Option.map_eq_some'] at h
        obtain ⟨us', hus', rfl⟩ := h
        have hlen : rest.length ≤ fuel := by
          have := classify_length (b :: tl) u' rest hc
          simp only [List.length_cons] at this hle
          omega
        show u' :: decodeReplaceAux fuel rest = u' :: us'
        rw [ih rest us' hlen hus']

theorem decodeStrictAux_none_replacement :
    ∀ (fuel : Nat) (bs : List Nat), bs.length ≤ fuel →
      decodeStrictAux fuel bs = none → 0xFFFD ∈ decodeReplaceAux fuel bs := by
  intro fuel
  induction fuel with
  | zero =>
    intro bs hle h
    cases bs with
    | nil => simp [decodeStrictAux] at h
    | cons b tl => simp at hle
  | succ fuel ih =>
    intro bs hle h
    cases bs with
    | nil => simp [decodeStrictAux] at h
    | cons b tl =>
      rw [decodeStrictAux] at h
      rw [decodeReplaceAux]
      cases hc : classify (b :: tl) with
      | none =>
        show (0xFFFD : Nat) ∈
          0xFFFD :: decodeReplaceAux fuel ((b :: tl).drop (invalidSkip (b :: tl)))
        exact List.mem_cons_self _ _
      | some p =>
        obtain ⟨u', rest⟩ := p
        rw [hc] at h
        simp only [Option.map_eq_none'] at h
        have hlen : rest.length ≤ fuel := by
          have := classify_length (b :: tl) u' rest hc
          simp only [List.length_cons] at this hle
          omega
        show (0xFFFD : Nat) ∈ u' :: decodeReplaceAux fuel rest
        exact List.mem_cons_of_mem _ (ih rest hlen h)

theorem decodeUtf8Replace_agree (bs us : List Nat)
    (h : decodeUtf8Strict bs = some us) : decodeUtf8Replace bs = us :=
  decodeStrictAux_agree bs.length bs us le_rfl h

theorem decodeUtf8Replace_replacement (bs : List Nat)
    (h : decodeUtf8Strict bs = none) : 0xFFFD ∈ decodeUtf8Replace bs :=
  decodeStrictAux_none_replacement bs.length bs le_rfl h

theorem postInit_headers {J : Type} (jsonLoads : List Nat → Option J)
    (r : NormalizedResponse J) : (postInit jsonLoads r).headers = r.headers := by
  unfold postInit; split <;> rfl

theorem postInit_text {J : Type} (jsonLoads : List Nat → Option J)
    (r : NormalizedResponse J) : (postInit jsonLoads r).text = r.text := by
  unfold postInit; split <;> rfl

/-- Claim C9: a NormalizedResponse built by `from_backend` has its header keys
lowercased; its text is the total replacement-mode UTF-8 decode of the
body (agreeing with strict UTF-8 on valid input and substituting U+FFFD
on invalid input instead of failing); when flagged `is_json` the JSON
field holds exactly the outcome of the parse (absent on parse failure,
no error), and it stays absent when not flagged. -/
theorem normalized_response_spec {J : Type} (jsonLoads : List Nat → Option J)
    (statusCode : Int) (headers : List (String × String)) (content : List Nat)
    (url : String) (isJson : Bool) :
    (fromBackend jsonLoads statusCode headers content url isJson).headers =
      headers.map (fun p => (pyLower p.1, p.2)) ∧
    (fromBackend jsonLoads statusCode headers content url isJson).text =
      decodeUtf8Replace content ∧
    (∀ us, decodeUtf8Strict content = some us →
      (fromBackend jsonLoads statusCode headers content url isJson).text = us) ∧
    (decodeUtf8Strict content = none →
      0xFFFD ∈ (fromBackend jsonLoads statusCode headers content url isJson).text) ∧
    (isJson = true →
      (fromBackend jsonLoads statusCode headers content url isJson).jsonData =
        jsonLoads (decodeUtf8Replace content)) ∧
    (isJson = false →
      (fromBackend jsonLoads statusCode headers content url isJson).jsonData =
        none) := by
  refine ⟨?_, ?_, ?_, ?_, ?_, ?_⟩
  · rw [fromBackend, postInit_headers]
    rfl
  · rw [fromBackend, postInit_text]
  · intro us h
    rw [fromBackend, postInit_text]
    exact decodeUtf8Replace_agree content us h
  · intro h
    rw [fromBackend, postInit_text]
    exact decodeUtf8Replace_replacement content h
  · intro h
    rw [fromBackend, postInit]
    simp [h]
  · intro h
    rw [fromBackend, postInit]
    simp [h]

/-- Witness for C9: a body consisting of the single invalid byte `0xFF`
flagged as JSON with a failing parse: headers lowercased, the text is
the replacement character, the JSON field stays absent. -/
theorem normalized_response_spec_witness :
    (fromBackend (J := Unit) (fun _ => none) 200
        [("Content-Type", "application/json")] [255] "u" true).headers =
      [("content-type", "application/json")] ∧
    0xFFFD ∈ (fromBackend (J := Unit) (fun _ => none) 200
        [("Content-Type", "application/json")] [255] "u" true).text ∧
    (fromBackend (J := Unit) (fun _ => none) 200
        [("Content-Type", "application/json")] [255] "u" true).jsonData = none := by
  have h := normalized_response_spec (J := Unit) (fun _ => none) 200
    [("Content-Type", "application/json")] [255] "u" true
  refine ⟨?_, h.2.2.2.1 (by decide), ?_⟩
  · rw [h.1]; decide
  · rw [h.2.2.2.2.1 rfl]

/-- Claim C2: the `RequestConfig(...)` construction in
`ParallelRequests._execute_request` passes keyword arguments that are
not all declared fields of the `RequestConfig` dataclass — in
particular `follow_redirects` and `verify_ssl` are passed but not
declared, so the construction raises a `TypeError` instead of
succeeding. -/
theorem requestConfig_unexpected_keyword :
    dataclassAcceptsKeywords requestConfigFields clientRequestConfigKeywords
      = false ∧
    ("follow_redirects" ∈ clientRequestConfigKeywords ∧
      "follow_redirects" ∉ requestConfigFields) ∧
    ("verify_ssl" ∈ clientRequestConfigKeywords ∧
      "verify_ssl" ∉ requestConfigFields) := by
  decide

theorem zip_get? {α β : Type} (l1 : List α) (l2 : List β) :
    ∀ i, (l1.zip l2).get? i =
      match l1.get? i, l2.get? i with
      | some a, some b => some (a, b)
      | _, _ => none := by
  induction l1 generalizing l2 with
  | nil => intro i; cases l2 <;> cases i <;> simp
  | cons a tl ih =>
    intro i
    cases l2 with
    | nil => cases i <;> simp
    | cons b tl2 =>
      cases i with
      | zero => simp
      | succ j => simpa using ih tl2 j

theorem batchResults_length {V : Type} (urls : String ⊕ List String)
    (outcomes : Nat → Except PyError V) :
    (batchResults urls outcomes).length = (urlListOf urls).length := by
  simp [batchResults]

theorem batchResults_get? {V : Type} (urls : String ⊕ List String)
    (outcomes : Nat → Except PyError V) (i : Nat)
    (hi : i < (urlListOf urls).length) :
    (batchResults urls outcomes).get? i = some (outcomes i) := by
  unfold batchResults
  rw [List.get?_map, List.get?_range hi]
  rfl

theorem batch_pairs_get {V : Type} (urls : String ⊕ List String)
    (outcomes : Nat → Except PyError V) (i : Nat)
    (hi : i < (urlListOf urls).length) :
    ((urlListOf urls).zip (batchResults urls outcomes)).get? i =
      some ((urlListOf urls).get ⟨i, hi⟩, outcomes i) := by
  rw [zip_get?, List.get?_eq_get hi, batchResults_get? urls outcomes i hi]

theorem batch_pairs_mem {V : Type} (urls : String ⊕ List String)
    (outcomes : Nat → Except PyError V) (p : String × Except PyError V) :
    p ∈ (urlListOf urls).zip (batchResults urls outcomes) ↔
      ∃ i, i < (urlListOf urls).length ∧
        (urlListOf urls).get? i = some p.1 ∧ outcomes i = p.2 := by
  constructor
  · intro hp
    obtain ⟨n, hn⟩ := List.mem_iff_get?.mp hp
    have hlen : n < (urlListOf urls).length := by
      have h1 := List.get?_eq_some.mp hn
      obtain ⟨hbound, _⟩ := h1
      rw [List.length_zip, batchResults_length] at hbound
      omega
    rw [batch_pairs_get urls outcomes n hlen] at hn
    have hpe : ((urlListOf urls).get ⟨n, hlen⟩, outcomes n) = p := Option.some.inj hn
    refine ⟨n, hlen, ?_, ?_⟩
    · rw [List.get?_eq_get hlen, ← hpe]
    · rw [← hpe]
  · rintro ⟨i, hi, hu, ho⟩
    have hget := batch_pairs_get urls outcomes i hi
    have hp1 : (urlListOf urls).get ⟨i, hi⟩ = p.1 := by
      rw [List.get?_eq_get hi] at hu
      exact Option.some.inj hu
    have : ((urlListOf urls).zip (batchResults urls outcomes)).get? i = some p := by
      rw [hget, hp1, ho]
    exact List.get?_mem this

theorem foldl_recordFailure_keys_mem {V : Type}
    (pairs : List (String × Except PyError V)) :
    ∀ (acc : List (String × FailureDetails)) (u : String),
      (u ∈ (pairs.foldl recordFailure acc).map Prod.fst ↔
        u ∈ acc.map Prod.fst ∨ ∃ p ∈ pairs, p.1 = u ∧ isOk p.2 = false) := by
  induction pairs with
  | nil => intro acc u; simp
  | cons p tl ih =>
    intro acc u
    rw [List.foldl_cons, ih]
    cases hp : p.2 with
    | ok v =>
      have hstep : recordFailure acc p = acc := by simp [recordFailure, hp]
      have hok : isOk p.2 = true := by simp [isOk, hp]
      rw [hstep]
      simp only [List.mem_cons, exists_eq_or_imp, hok]
      tauto
    | error e =>
      have hstep : recordFailure acc p = dictInsert acc p.1 ⟨p.1, e, 0⟩ := by
        simp [recordFailure, hp]
      rw [hstep, dictInsert_keys_mem]
      constructor
      · rintro ((h | h) | h)
        · exact Or.inr ⟨p, List.mem_cons_self _ _, h.symm, by simp [isOk, hp]⟩
        · exact Or.inl h
        · obtain ⟨q, hq, hqu, hqf⟩ := h
          exact Or.inr ⟨q, List.mem_cons_of_mem _ hq, hqu, hqf⟩
      · rintro (h | ⟨q, hq, hqu, hqf⟩)
        · exact Or.inl (Or.inr h)
        · rcases List.mem_cons.mp hq with rfl | hq'
          · exact Or.inl (Or.inl hqu.symm)
          · exact Or.inr ⟨q, hq', hqu, hqf⟩

theorem foldl_recordFailure_keys_nodup {V : Type}
    (pairs : List (String × Except PyError V)) :
    ∀ acc, (acc.map Prod.fst).Nodup →
      ((pairs.foldl recordFailure acc).map Prod.fst).Nodup := by
  induction pairs with
  | nil => intro acc h; simpa using h
  | cons p tl ih =>
    intro acc h
    rw [List.foldl_cons]
    apply ih
    cases hp : p.2 with
    | ok v => simpa [recordFailure, hp] using h
    | error e =>
      have hstep : recordFailure acc p = dictInsert acc p.1 ⟨p.1, e, 0⟩ := by
        simp [recordFailure, hp]
      rw [hstep]
      exact dictInsert_keys_nodup _ _ _ h

theorem batchFailures_false_eq {V : Type} (urls : String ⊕ List String)
    (outcomes : Nat → Except PyError V) :
    batchFailures false urls outcomes =
      ((urlListOf urls).zip (batchResults urls outcomes)).foldl recordFailure [] := by
  unfold batchFailures buildFailures
  rw [if_neg (by simp)]

theorem batchFailures_keys_mem {V : Type} (urls : String ⊕ List String)
    (outcomes : Nat → Except PyError V) (u : String) :
    u ∈ (batchFailures false urls outcomes).map Prod.fst ↔
      ∃ i, i < (urlListOf urls).length ∧
        (urlListOf urls).get? i = some u ∧ isOk (outcomes i) = false := by
  rw [batchFailures_false_eq, foldl_recordFailure_keys_mem]
  simp only [List.map_nil, List.not_mem_nil, false_or]
  constructor
  · rintro ⟨p, hp, hpu, hpf⟩
    obtain ⟨i, hi, hu, ho⟩ := (batch_pairs_mem urls outcomes p).mp hp
    refine ⟨i, hi, ?_, ?_⟩
    · rw [hu, hpu]
    · rw [ho]; exact hpf
  · rintro ⟨i, hi, hu, hf⟩
    refine ⟨(u, outcomes i), ?_, rfl, hf⟩
    rw [batch_pairs_mem]
    exact ⟨i, hi, hu, rfl⟩

theorem batchSuccesses_eq {V : Type} (urls : String ⊕ List String)
    (outcomes : Nat → Except PyError V) :
    batchSuccesses urls outcomes =
      ((List.range (urlListOf urls).length).filter
        (fun i => isOk (outcomes i))).length := by
  unfold batchSuccesses batchResults
  rw [List.filter_map, List.length_map]
  rfl

theorem request_raise_eq {V : Type} (urls : String ⊕ List String)
    (keys : Option (List String)) (parse : Option (V → V))
    (outcomes : Nat → Except PyError V)
    (hkm : keysMismatch keys (urlListOf urls).length = false)
    (hne : batchFailures false urls outcomes ≠ []) :
    request true false urls keys parse outcomes =
      .raisedPartialFailure
        ⟨partialFailureMessage (batchFailures false urls outcomes).length
            (urlListOf urls).length,
         batchFailures false urls outcomes,
         batchSuccesses urls outcomes,
         (urlListOf urls).length⟩ := by
  have hie : (batchFailures false urls outcomes).isEmpty = false := by
    cases hl : batchFailures false urls outcomes with
    | nil => exact absurd hl hne
    | cons a t => rfl
  unfold request
  rw [if_neg (by simp), if_neg (by simp [hkm]), if_pos (by simp [hie])]

theorem request_single_eq {V : Type} (rn : Bool) (u : String)
    (keys : Option (List String)) (parse : Option (V → V))
    (outcomes : Nat → Except PyError V)
    (hkm : keysMismatch keys (urlListOf (.inl u)).length = false)
    (hcond : (!(batchFailures rn (.inl u) outcomes).isEmpty && !rn) = false) :
    request true rn (.inl u) keys parse outcomes =
      match batchProcessed rn parse (.inl u) outcomes with
      | c :: _ => .completed (.single c)
      | [] => .completed (.single .noneSentinel) := by
  unfold request
  rw [if_neg (by simp), if_neg (by simp [hkm]), if_neg (by simp [hcond])]

theorem request_keyed_eq {V : Type} (rn : Bool) (us : List String)
    (ks : List String) (parse : Option (V → V))
    (outcomes : Nat → Except PyError V)
    (hkm : keysMismatch (some ks) (urlListOf (.inr us)).length = false)
    (hcond : (!(batchFailures rn (.inr us) outcomes).isEmpty && !rn) = false) :
    request true rn (.inr us) (some ks) parse outcomes =
      .completed (.keyed (dictOfZip ks (batchProcessed rn parse (.inr us) outcomes))) := by
  unfold request
  rw [if_neg (by simp), if_neg (by simp [hkm]), if_neg (by simp [hcond])]

theorem request_listed_eq {V : Type} (rn : Bool) (us : List String)
    (parse : Option (V → V)) (outcomes : Nat → Except PyError V)
    (hcond : (!(batchFailures rn (.inr us) outcomes).isEmpty && !rn) = false) :
    request true rn (.inr us) none parse outcomes =
      .completed (.listed (batchProcessed rn parse (.inr us) outcomes)) := by
  unfold request
  rw [if_neg (by simp), if_neg (by simp [keysMismatch]), if_neg (by simp [hcond])]

/-- Claim C1: with graceful degradation off, a batch with at least one failed
item makes `request` raise exactly one `PartialFailureError` — after
the gathered results of all tasks are in — carrying a message, a
failure map covering exactly the failed URLs, a success count equal to
the number of items whose task did not raise, and a total equal to the
number of input URLs; with graceful degradation on nothing is raised,
and in an unkeyed list batch every failed position holds the `None`
sentinel while every successful position holds its (parsed) value. -/
theorem partial_failure_accounting {V : Type} (urls : String ⊕ List String)
    (keys : Option (List String)) (parse : Option (V → V))
    (outcomes : Nat → Except PyError V)
    (hkm : keysMismatch keys (urlListOf urls).length = false) :
    ((∃ i, i < (urlListOf urls).length ∧ isOk (outcomes i) = false) →
      ∃ p, request true false urls keys parse outcomes =
          .raisedPartialFailure p ∧
        p.message = partialFailureMessage p.failures.length p.total ∧
        p.total = (urlListOf urls).length ∧
        p.successes =
          ((List.range (urlListOf urls).length).filter
            (fun i => isOk (outcomes i))).length ∧
        (∀ u, u ∈ p.failures.map Prod.fst ↔
          ∃ i, i < (urlListOf urls).length ∧
            (urlListOf urls).get? i = some u ∧ isOk (outcomes i) = false)) ∧
    (∃ r, request true true urls keys parse outcomes = .completed r) ∧
    (∀ us, urls = .inr us → keys = none →
      ∃ cs, request true true urls keys parse outcomes =
          .completed (.listed cs) ∧
        cs.length = us.length ∧
        ∀ i, i < us.length →
          (isOk (outcomes i) = false → cs.get? i = some .noneSentinel) ∧
          (∀ v, outcomes i = .ok v →
            cs.get? i = some (.value (applyParse parse v)))) := by
  refine ⟨?_, ?_, ?_⟩
  · rintro ⟨i0, hi0, hf0⟩
    have hne : batchFailures false urls outcomes ≠ [] := by
      intro hempty
      obtain ⟨u0, hu0⟩ : ∃ u0, (urlListOf urls).get? i0 = some u0 :=
        ⟨_, List.get?_eq_get hi0⟩
      have hmem : u0 ∈ (batchFailures false urls outcomes).map Prod.fst :=
        (batchFailures_keys_mem urls outcomes u0).mpr ⟨i0, hi0, hu0, hf0⟩
      rw [hempty] at hmem
      simp at hmem
    refine ⟨_, request_raise_eq urls keys parse outcomes hkm hne, rfl, rfl,
      batchSuccesses_eq urls outcomes, ?_⟩
    intro u
    exact batchFailures_keys_mem urls outcomes u
  · cases urls with
    | inl u =>
      rw [request_single_eq true u keys parse outcomes hkm (by simp)]
      cases hproc : batchProcessed true parse (.inl u) outcomes with
      | nil => exact ⟨_, rfl⟩
      | cons c rest => exact ⟨_, rfl⟩
    | inr us =>
      cases keys with
      | some ks =>
        rw [request_keyed_eq true us ks parse outcomes hkm (by simp)]
        exact ⟨_, rfl⟩
      | none =>
        rw [request_listed_eq true us parse outcomes (by simp)]
        exact ⟨_, rfl⟩
  · intro us hus hk
    subst hus; subst hk
    rw [request_listed_eq true us parse outcomes (by simp)]
    refine ⟨batchProcessed true parse (.inr us) outcomes, rfl, ?_, ?_⟩
    · simp [batchProcessed, processedResults, batchResults, urlListOf]
    · intro i hi
      have hres : (batchResults (.inr us) outcomes).get? i = some (outcomes i) :=
        batchResults_get? _ _ i (by simpa [urlListOf] using hi)
      constructor
      · intro hfail
        cases ho : outcomes i with
        | ok v => rw [ho] at hfail; simp [isOk] at hfail
        | error e =>
          unfold batchProcessed processedResults
          rw [List.get?_map, hres, ho]
          rfl
      · intro v hv
        unfold batchProcessed processedResults
        rw [List.get?_map, hres, hv]
        rfl

/-- Witness for C1: the spec's 4-item batch with items 1 and 3 failing:
total 4, successes 2, and with graceful degradation on, position 1
holds the `None` sentinel. -/
theorem partial_failure_accounting_witness :
    (∃ p, request (V := Nat) true false (.inr ["a", "b", "c", "d"]) none none
        (fun i => if i = 1 ∨ i = 3 then .error ⟨1, 0⟩ else .ok i) =
        .raisedPartialFailure p ∧ p.total = 4 ∧ p.successes = 2) ∧
    (∃ cs, request (V := Nat) true true (.inr ["a", "b", "c", "d"]) none none
        (fun i => if i = 1 ∨ i = 3 then .error ⟨1, 0⟩ else .ok i) =
        .completed (.listed cs) ∧ cs.get? 1 = some .noneSentinel ∧
        cs.get? 0 = some (.value 0)) := by
  have h := partial_failure_accounting (V := Nat) (.inr ["a", "b", "c", "d"])
    none none (fun i => if i = 1 ∨ i = 3 then .error ⟨1, 0⟩ else .ok i)
    (by decide)
  constructor
  · obtain ⟨p, hp, hmsg, htot, hsucc, hmem⟩ := h.1 ⟨1, by decide, by decide⟩
    exact ⟨p, hp, htot.trans (by decide), hsucc.trans (by decide)⟩
  · obtain ⟨cs, hcs, hlen, hcell⟩ := h.2.2 ["a", "b", "c", "d"] rfl rfl
    exact ⟨cs, hcs, (hcell 1 (by decide)).1 (by decide),
      (hcell 0 (by decide)).2 0 (by rfl)⟩

theorem lookup_map_pair {γ : Type} (f : Nat → γ) :
    ∀ (l : List Nat) (i : Nat), i ∈ l →
      (l.map (fun j => (j, f j))).lookup i = some (f i) := by
  intro l
  induction l with
  | nil => intro i h; simp at h
  | cons j tl ih =>
    intro i h
    rcases List.mem_cons.mp h with rfl | h'
    · simp [List.lookup]
    · by_cases hij : i = j
      · subst hij; simp [List.lookup]
      · have hne : (i == j) = false := by simp [hij]
        simpa [List.lookup, hne] using ih i h'

theorem gatherResults_eq {V : Type} (outcomes : Nat → Except PyError V) (n : Nat)
    (sched : List Nat) (hperm : sched.Perm (List.range n)) :
    gatherResults outcomes n sched =
      (List.range n).map (fun i => some (outcomes i)) := by
  unfold gatherResults
  apply List.map_congr_left
  intro i hi
  exact lookup_map_pair outcomes sched i (hperm.mem_iff.mpr hi)

theorem dictInsert_append {β : Type} (d : List (String × β)) (k : String) (v : β)
    (h : k ∉ d.map Prod.fst) : dictInsert d k v = d ++ [(k, v)] := by
  induction d with
  | nil => simp [dictInsert]
  | cons a tl ih =>
    simp only [List.map_cons, List.mem_cons] at h
    push_neg at h
    have hne : ¬ a.1 = k := fun he => h.1 he.symm
    simp only [dictInsert, if_neg hne, List.cons_append]
    rw [ih h.2]

theorem foldl_dictInsert_fresh {β : Type} :
    ∀ (pairs : List (String × β)) (acc : List (String × β)),
      (∀ p ∈ pairs, p.1 ∉ acc.map Prod.fst) → (pairs.map Prod.fst).Nodup →
      pairs.foldl (fun d p => dictInsert d p.1 p.2) acc = acc ++ pairs := by
  intro pairs
  induction pairs with
  | nil => intro acc _ _; simp
  | cons p tl ih =>
    intro acc hfresh hnd
    simp only [List.map_cons, List.nodup_cons] at hnd
    rw [List.foldl_cons,
      dictInsert_append acc p.1 p.2 (hfresh p (List.mem_cons_self _ _))]
    have hfresh2 : ∀ q ∈ tl, q.1 ∉ (acc ++ [(p.1, p.2)]).map Prod.fst := by
      intro q hq
      simp only [List.map_append, List.mem_append, List.map_cons, List.map_nil,
        List.mem_singleton]
      rintro (hacc | hqp)
      · exact hfresh q (List.mem_cons_of_mem _ hq) hacc
      · exact hnd.1 (hqp ▸ List.mem_map_of_mem Prod.fst hq)
    rw [ih (acc ++ [(p.1, p.2)]) hfresh2 hnd.2]
    simp

theorem dictOfZip_eq_zip {V : Type} (ks : List String) (cs : List (Cell V))
    (hnd : ks.Nodup) (hlen : ks.length ≤ cs.length) :
    dictOfZip ks cs = ks.zip cs := by
  unfold dictOfZip
  rw [foldl_dictInsert_fresh (ks.zip cs) [] (by simp) ?_]
  · simp
  · rw [List.map_fst_zip ks cs hlen]
    exact hnd

theorem lookup_zip_nodup {V : Type} :
    ∀ (ks : List String) (cs : List (Cell V)) (i : Nat), ks.Nodup →
      ∀ (a : String) (c : Cell V), ks.get? i = some a → cs.get? i = some c →
        (ks.zip cs).lookup a = some c := by
  intro ks
  induction ks with
  | nil => intro cs i _ a c h; simp at h
  | cons k tl ih =>
    intro cs i hnd a c hk hc
    cases cs with
    | nil => simp at hc
    | cons c0 cs' =>
      cases i with
      | zero =>
        simp only [List.get?] at hk hc
        have hka : k = a := Option.some.inj hk
        have hcc : c0 = c := Option.some.inj hc
        subst hka; subst hcc
        simp [List.zip_cons_cons, List.lookup]
      | succ j =>
        simp only [List.get?] at hk hc
        have ha : a ∈ tl := List.get?_mem hk
        have hne : (a == k) = false := by
          rw [beq_eq_false_iff_ne]
          intro he
          exact (List.nodup_cons.mp hnd).1 (he ▸ ha)
        rw [List.zip_cons_cons]
        simp only [List.lookup, hne]
        exact ih cs' j (List.nodup_cons.mp hnd).2 a c hk hc

theorem batchFailures_all_ok {V : Type} (urls : String ⊕ List String)
    (outcomes : Nat → Except PyError V)
    (hok : ∀ i, i < (urlListOf urls).length → isOk (outcomes i) = true) :
    batchFailures false urls outcomes = [] := by
  cases hl : batchFailures false urls outcomes with
  | nil => rfl
  | cons a t =>
    exfalso
    have hmem : a.1 ∈ (batchFailures false urls outcomes).map Prod.fst := by
      rw [hl]; simp
    obtain ⟨i, hi, _, hf⟩ := (batchFailures_keys_mem urls outcomes a.1).mp hmem
    rw [hok i hi] at hf
    exact Bool.noConfusion hf

theorem batchProcessed_length {V : Type} (rn : Bool) (parse : Option (V → V))
    (urls : String ⊕ List String) (outcomes : Nat → Except PyError V) :
    (batchProcessed rn parse urls outcomes).length = (urlListOf urls).length := by
  simp [batchProcessed, processedResults, batchResults]

theorem batchProcessed_get?_ok {V : Type} (rn : Bool) (parse : Option (V → V))
    (urls : String ⊕ List String) (outcomes : Nat → Except PyError V)
    (i : Nat) (hi : i < (urlListOf urls).length) (v : V)
    (hv : outcomes i = .ok v) :
    (batchProcessed rn parse urls outcomes).get? i =
      some (.value (applyParse parse v)) := by
  unfold batchProcessed processedResults
  rw [List.get?_map, batchResults_get? urls outcomes i hi, hv]
  rfl

/-- Claim C3: results are shaped by the input: gather reassembles outcomes in
input-index order whatever the completion order; a single URL string
returns the bare item unwrapped; a URL list with (distinct) keys
returns a mapping sending each key to the same-index URL's result; a
URL list without keys returns a list whose i-th element is the i-th
URL's result. -/
theorem request_shapes {V : Type} (urls : String ⊕ List String)
    (keys : Option (List String)) (parse : Option (V → V))
    (outcomes : Nat → Except PyError V) (sched : List Nat)
    (hsched : sched.Perm (List.range (urlListOf urls).length))
    (hok : ∀ i, i < (urlListOf urls).length → isOk (outcomes i) = true)
    (hkm : keysMismatch keys (urlListOf urls).length = false) :
    gatherResults outcomes (urlListOf urls).length sched =
      (List.range (urlListOf urls).length).map (fun i => some (outcomes i)) ∧
    (∀ u, urls = .inl u → ∀ v, outcomes 0 = .ok v →
      request true false urls keys parse outcomes =
        .completed (.single (.value (applyParse parse v)))) ∧
    (∀ us ks, urls = .inr us → keys = some ks → ks.Nodup →
      ∃ d, request true false urls keys parse outcomes =
          .completed (.keyed d) ∧
        ∀ i v, i < (urlListOf urls).length → outcomes i = .ok v →
          ∀ a, ks.get? i = some a →
            d.lookup a = some (.value (applyParse parse v))) ∧
    (∀ us, urls = .inr us → keys = none →
      ∃ cs, request true false urls keys parse outcomes =
          .completed (.listed cs) ∧
        cs.length = us.length ∧
        ∀ i v, i < us.length → outcomes i = .ok v →
          cs.get? i = some (.value (applyParse parse v))) := by
  have hempty : batchFailures false urls outcomes = [] :=
    batchFailures_all_ok urls outcomes hok
  have hcond : (!(batchFailures false urls outcomes).isEmpty && !false) = false := by
    rw [hempty]; rfl
  refine ⟨gatherResults_eq outcomes _ sched hsched, ?_, ?_, ?_⟩
  · rintro u rfl v hv
    rw [request_single_eq false u keys parse outcomes hkm hcond]
    have hproc : batchProcessed false parse (.inl u) outcomes =
        [.value (applyParse parse v)] := by
      unfold batchProcessed processedResults batchResults
      simp [urlListOf, List.range_succ, hv]
    rw [hproc]
  · rintro us ks rfl rfl hndks
    rw [request_keyed_eq false us ks parse outcomes hkm hcond]
    have hlen : ks.length ≤ (batchProcessed false parse (.inr us) outcomes).length := by
      rw [batchProcessed_length]
      have : ks.length = (urlListOf (.inr us)).length := by
        by_contra hne
        simp [keysMismatch, hne] at hkm
      omega
    refine ⟨_, rfl, ?_⟩
    intro i v hi hv a ha
    rw [dictOfZip_eq_zip ks _ hndks hlen]
    exact lookup_zip_nodup ks _ i hndks a _ ha
      (batchProcessed_get?_ok false parse (.inr us) outcomes i hi v hv)
  · rintro us rfl rfl
    rw [request_listed_eq false us parse outcomes hcond]
    refine ⟨_, rfl, batchProcessed_length false parse (.inr us) outcomes, ?_⟩
    intro i v hi hv
    exact batchProcessed_get?_ok false parse (.inr us) outcomes i
      (by simpa [urlListOf] using hi) v hv

/-- Witness for C3: three URLs with keys `x, y, z` and outcomes `0, 1,
2` delivered in completion order `[2, 0, 1]`: gather reassembles in
input order, and the keyed result maps `y` to the result of index 1. -/
theorem request_shapes_witness :
    gatherResults (V := Nat) (fun i => .ok i) 3 [2, 0, 1] =
      [some (.ok 0), some (.ok 1), some (.ok 2)] ∧
    (∃ d, request (V := Nat) true false (.inr ["A", "B", "C"])
        (some ["x", "y", "z"]) none (fun i => .ok i) =
        .completed (.keyed d) ∧ d.lookup "y" = some (.value 1)) := by
  have h := request_shapes (V := Nat) (.inr ["A", "B", "C"])
    (some ["x", "y", "z"]) none (fun i => .ok i) [2, 0, 1]
    (by decide) (by decide) (by decide)
  constructor
  · exact h.1.trans rfl
  · obtain ⟨d, hd, hlook⟩ := h.2.2.1 ["A", "B", "C"] ["x", "y", "z"] rfl rfl
      (by decide)
    exact ⟨d, hd, hlook 1 1 (by decide) rfl "y" rfl⟩

theorem length_filter_partition {α : Type} (p : α → Bool) (l : List α) :
    (l.filter p).length + (l.filter (fun a => !(p a))).length = l.length := by
  induction l with
  | nil => simp
  | cons a tl ih =>
    by_cases h : p a <;> simp [List.filter_cons, h] <;> omega

theorem batchFailures_ne_nil {V : Type} (urls : String ⊕ List String)
    (outcomes : Nat → Except PyError V) (i0 : Nat)
    (hi0 : i0 < (urlListOf urls).length) (hf0 : isOk (outcomes i0) = false) :
    batchFailures false urls outcomes ≠ [] := by
  intro hempty
  obtain ⟨u0, hu0⟩ : ∃ u0, (urlListOf urls).get? i0 = some u0 :=
    ⟨_, List.get?_eq_get hi0⟩
  have hmem := (batchFailures_keys_mem urls outcomes u0).mpr ⟨i0, hi0, hu0, hf0⟩
  rw [hempty] at hmem
  simp at hmem

/-- Claim C10: the failure map of the raised `PartialFailureError` is keyed by
URL string: its keys are exactly the distinct failed URLs, with no
duplicate entries, so when two or more failed items share a URL their
records collapse into one entry and `successes + |failures| < total`. -/
theorem failures_collapse_by_url {V : Type} (urls : String ⊕ List String)
    (keys : Option (List String)) (parse : Option (V → V))
    (outcomes : Nat → Except PyError V)
    (hkm : keysMismatch keys (urlListOf urls).length = false)
    (hfail : ∃ i, i < (urlListOf urls).length ∧ isOk (outcomes i) = false) :
    ∃ p, request true false urls keys parse outcomes =
        .raisedPartialFailure p ∧
      (p.failures.map Prod.fst).Nodup ∧
      (∀ u, u ∈ p.failures.map Prod.fst ↔
        ∃ i, i < (urlListOf urls).length ∧
          (urlListOf urls).get? i = some u ∧ isOk (outcomes i) = false) ∧
      (¬ ((((urlListOf urls).zip (batchResults urls outcomes)).filter
            (fun q => !(isOk q.2))).map Prod.fst).Nodup →
        p.successes + p.failures.length < p.total) := by
  obtain ⟨i0, hi0, hf0⟩ := hfail
  refine ⟨_, request_raise_eq urls keys parse outcomes hkm
    (batchFailures_ne_nil urls outcomes i0 hi0 hf0), ?_, ?_, ?_⟩
  · show ((batchFailures false urls outcomes).map Prod.fst).Nodup
    rw [batchFailures_false_eq]
    exact foldl_recordFailure_keys_nodup _ [] (by simp)
  · intro u
    exact batchFailures_keys_mem urls outcomes u
  · intro hdup
    have hKnd : ((batchFailures false urls outcomes).map Prod.fst).Nodup := by
      rw [batchFailures_false_eq]
      exact foldl_recordFailure_keys_nodup _ [] (by simp)
    have hmemiff : ∀ u, u ∈ (batchFailures false urls outcomes).map Prod.fst ↔
        u ∈ (((urlListOf urls).zip (batchResults urls outcomes)).filter
              (fun q => !(isOk q.2))).map Prod.fst := by
      intro u
      rw [batchFailures_keys_mem urls outcomes u]
      constructor
      · rintro ⟨i, hi, hu, hf⟩
        rw [List.mem_map]
        refine ⟨(u, outcomes i), ?_, rfl⟩
        rw [List.mem_filter]
        refine ⟨?_, by simp [hf]⟩
        rw [batch_pairs_mem]
        exact ⟨i, hi, hu, rfl⟩
      · intro hu
        rw [List.mem_map] at hu
        obtain ⟨q, hq, hqu⟩ := hu
        rw [List.mem_filter] at hq
        obtain ⟨i, hi, hqurl, hqout⟩ := (batch_pairs_mem urls outcomes q).mp hq.1
        refine ⟨i, hi, hqu ▸ hqurl, ?_⟩
        rw [hqout]
        simpa using hq.2
    have hfin : ((batchFailures false urls outcomes).map Prod.fst).toFinset =
        ((((urlListOf urls).zip (batchResults urls outcomes)).filter
          (fun q => !(isOk q.2))).map Prod.fst).toFinset := by
      apply Finset.ext
      intro u
      simp only [List.mem_toFinset]
      exact hmemiff u
    have h1 : ((batchFailures false urls outcomes).map Prod.fst).length =
        ((((urlListOf urls).zip (batchResults urls outcomes)).filter
          (fun q => !(isOk q.2))).map Prod.fst).dedup.length := by
      rw [← List.toFinset_card_of_nodup hKnd, hfin, List.card_toFinset]
    have h2 : ((((urlListOf urls).zip (batchResults urls outcomes)).filter
          (fun q => !(isOk q.2))).map Prod.fst).dedup.length <
        ((((urlListOf urls).zip (batchResults urls outcomes)).filter
          (fun q => !(isOk q.2))).map Prod.fst).length := by
      rcases lt_or_eq_of_le (List.Sublist.length_le (List.dedup_sublist
          ((((urlListOf urls).zip (batchResults urls outcomes)).filter
            (fun q => !(isOk q.2))).map Prod.fst))) with h | h
      · exact h
      · exact absurd (List.dedup_eq_self.mp ((List.dedup_sublist _).eq_of_length h))
          hdup
    have h3 : ((((urlListOf urls).zip (batchResults urls outcomes)).filter
          (fun q => !(isOk q.2))).map Prod.fst).length =
        (((urlListOf urls).zip (batchResults urls outcomes)).filter
          (fun q => !(isOk q.2))).length := List.length_map _ _
    have hmapsnd : ((urlListOf urls).zip (batchResults urls outcomes)).map Prod.snd
        = batchResults urls outcomes :=
      List.map_snd_zip _ _ (le_of_eq (batchResults_length urls outcomes))
    have hFres : (((urlListOf urls).zip (batchResults urls outcomes)).filter
          (fun q => !(isOk q.2))).length =
        ((batchResults urls outcomes).filter (fun r => !(isOk r))).length := by
      conv_rhs => rw [← hmapsnd, List.filter_map, List.length_map]
      rfl
    have h4 : batchSuccesses urls outcomes +
        (((urlListOf urls).zip (batchResults urls outcomes)).filter
          (fun q => !(isOk q.2))).length = (urlListOf urls).length := by
      have hpart := length_filter_partition isOk (batchResults urls outcomes)
      rw [batchResults_length] at hpart
      have hs : batchSuccesses urls outcomes =
          ((batchResults urls outcomes).filter isOk).length := rfl
      omega
    show batchSuccesses urls outcomes +
        (batchFailures false urls outcomes).length < (urlListOf urls).length
    have h5 : (batchFailures false urls outcomes).length =
        ((batchFailures false urls outcomes).map Prod.fst).length :=
      (List.length_map _ _).symm
    omega

/-- Witness for C10: two failed items sharing the URL `u` collapse into
one failure entry, so `successes + |failures| = 0 + 1 < 2 = total`. -/
theorem failures_collapse_by_url_witness :
    ∃ p, request (V := Nat) true false (.inr ["u", "u"]) none none
        (fun _ => .error ⟨1, 0⟩) = .raisedPartialFailure p ∧
      p.successes + p.failures.length < p.total := by
  obtain ⟨p, hp, hnd, hmem, hlt⟩ := failures_collapse_by_url (V := Nat)
    (.inr ["u", "u"]) none none (fun _ => .error ⟨1, 0⟩) (by decide)
    ⟨0, by decide, by decide⟩
  exact ⟨p, hp, hlt (by decide)⟩

/-- Claim C7 counterexample: a client whose backend session was closed by
`close()` still has `self._backend` set, so a `request` call after
`close()` does not raise `ConfigurationError` — it proceeds and
completes — while an uninitialized client (backend `None`) does
raise. -/
theorem request_after_close_counterexample :
    (closeClient ⟨some ⟨false⟩⟩).backendRef.isSome = true ∧
    clientRequest (V := Nat) (closeClient ⟨some ⟨false⟩⟩) false
      (.inl "https://example.com") none none (fun _ => .ok 0) =
      .completed (.single (.value 0)) ∧
    clientRequest (V := Nat) (closeClient ⟨some ⟨false⟩⟩) false
      (.inl "https://example.com") none none (fun _ => .ok 0) ≠
      .raisedConfiguration "Backend not initialized" ∧
    clientRequest (V := Nat) (⟨none⟩ : Client) false
      (.inl "https://example.com") none none (fun _ => .ok 0) =
      .raisedConfiguration "Backend not initialized" := by
  have hreq : clientRequest (V := Nat) (closeClient ⟨some ⟨false⟩⟩) false
      (.inl "https://example.com") none none (fun _ => .ok 0) =
      .completed (.single (.value 0)) := by
    show request (V := Nat) ((closeClient ⟨some ⟨false⟩⟩).backendRef.isSome) false
      (.inl "https://example.com") none none (fun _ => .ok 0) =
      .completed (.single (.value 0))
    rw [show (closeClient (⟨some ⟨false⟩⟩ : Client)).backendRef.isSome = true
      from rfl]
    rw [request_single_eq false "https://example.com" none none (fun _ => .ok 0)
      rfl rfl]
    rfl
  refine ⟨rfl, hreq, ?_, rfl⟩
  rw [hreq]
  intro h
  exact RequestResult.noConfusion h

/-- Claim C7 amended: `request` raises `ConfigurationError` for the
initialization check only when `self._backend` is `None`; `close()`
leaves `self._backend` set, so a request after `close()` never raises
`ConfigurationError` (given well-formed keys). -/
theorem request_closed_behavior {V : Type} (c : Client)
    (urls : String ⊕ List String) (keys : Option (List String))
    (parse : Option (V → V)) (outcomes : Nat → Except PyError V) (rn : Bool)
    (hkm : keysMismatch keys (urlListOf urls).length = false) :
    ((closeClient c).backendRef.isSome = c.backendRef.isSome) ∧
    (c.backendRef = none →
      clientRequest c rn urls keys parse outcomes =
        .raisedConfiguration "Backend not initialized") ∧
    (c.backendRef ≠ none → ∀ msg,
      clientRequest (closeClient c) rn urls keys parse outcomes ≠
        .raisedConfiguration msg) := by
  refine ⟨?_, ?_, ?_⟩
  · cases c with
    | mk b => cases b <;> rfl
  · intro h
    unfold clientRequest
    rw [h]
    rfl
  · intro h msg
    have hsome : (closeClient c).backendRef.isSome = true := by
      cases hc : c.backendRef with
      | none => exact absurd hc h
      | some b => simp [closeClient, hc]
    unfold clientRequest
    rw [hsome]
    intro heq
    unfold request at heq
    rw [if_neg (by simp), if_neg (by simp [hkm])] at heq
    by_cases hcond : (!(batchFailures rn urls outcomes).isEmpty && !rn) = true
    · rw [if_pos hcond] at heq
      exact RequestResult.noConfusion heq
    · rw [if_neg hcond] at heq
      cases urls with
      | inl u =>
        cases hbp : batchProcessed rn parse (.inl u) outcomes with
        | nil => rw [hbp] at heq; exact RequestResult.noConfusion heq
        | cons c0 rest => rw [hbp] at heq; exact RequestResult.noConfusion heq
      | inr us =>
        cases keys with
        | some ks => exact RequestResult.noConfusion heq
        | none => exact RequestResult.noConfusion heq

/-- Witness for C7's amended statement at a concrete closed client. -/
theorem request_closed_behavior_witness :
    (closeClient ⟨some ⟨false⟩⟩).backendRef.isSome =
      (⟨some ⟨false⟩⟩ : Client).backendRef.isSome ∧
    clientRequest (V := Nat) (closeClient ⟨some ⟨false⟩⟩) false
      (.inl "https://example.com") none none (fun _ => .ok 0) ≠
      .raisedConfiguration "Backend not initialized" := by
  have h := request_closed_behavior (V := Nat) ⟨some ⟨false⟩⟩
    (.inl "https://example.com") none none (fun _ => .ok 0) false (by decide)
  exact ⟨h.1, h.2.2 (by simp) "Backend not initialized"⟩

end ParallelRequests
